import Mathlib

/-!
Shallow embedding of `torch/_inductor/kernel/mm_scaled_grouped.py` (the autotuned
scaled grouped matrix-multiplication lowering) together with proofs settling the
frozen claims about it.

The embedding translates, from the source:
* the `Config` dataclass and the two configuration generators `_NV_CONFIGS` /
  `_AMD_CONFIGS`;
* `early_config_prune` (the feasibility pruner), with the device queries
  `get_gpu_shared_memory()` / `get_num_sms()` and `torch.version.hip` passed in
  as explicit parameters;
* the eligibility gate `can_use_triton_kernel`;
* `grouped_mm_args` (output-layout derivation and the layout/out_dtype assert);
* the dynamic-dimension flag assignment of `tuned_scaled_grouped_mm`;
* the persistent-kernel tile scheduler of `triton_scaled_grouped_mm_source`
  (the group loop, the running offset cursors, and the inner `while` loop that
  walks a context's strided global tile index), as `simGroups` / `simAll`;
* the scale-address / output-store arithmetic of the template's epilogue.

Machine integers are modelled as `Nat`; all the quantities involved are
nonnegative, and the only subtractions (`m_end_offset - m_start_offset` etc.)
act on monotone offset cursors, where truncated subtraction agrees with
integer subtraction.
-/

namespace ScaledGroupedMM

/-- `tl.cdiv(a, b) = (a + b - 1) // b` (ceiling division as used by the kernel). -/
def cdiv (a b : Nat) : Nat := (a + b - 1) / b

/-- Doubling loop computing the least power of two that is `≥ n`, starting
from the power `p`; the fuel (first argument) bounds the number of doublings
and `n` doublings always suffice (`2 ^ n ≥ n`). -/
def npo2_loop : Nat → Nat → Nat → Nat
  | 0, p, _ => p
  | fuel + 1, p, n => if n ≤ p then p else npo2_loop fuel (2 * p) n

/-- `next_power_of_2` from `torch/_inductor/runtime/runtime_utils.py`: the
least power of two that is `≥ n` (and `0` for `n = 0`, as the bit-twiddling
version returns there); see `next_power_of_2_spec`. -/
def next_power_of_2 (n : Nat) : Nat := if n = 0 then 0 else npo2_loop n 1 n

theorem npo2_loop_ge : ∀ fuel p n, n ≤ p * 2 ^ fuel → n ≤ npo2_loop fuel p n := by
  intro fuel
  induction fuel with
  | zero =>
    intro p n h
    rw [npo2_loop]
    simpa using h
  | succ fuel ih =>
    intro p n h
    rw [npo2_loop]
    by_cases hle : n ≤ p
    · rw [if_pos hle]; exact hle
    · rw [if_neg hle]
      apply ih
      calc n ≤ p * 2 ^ (fuel + 1) := h
        _ = 2 * p * 2 ^ fuel := by ring

theorem npo2_loop_pow : ∀ fuel p n, (∃ j, p = 2 ^ j) →
    ∃ k, npo2_loop fuel p n = 2 ^ k := by
  intro fuel
  induction fuel with
  | zero => intro p n h; rw [npo2_loop]; exact h
  | succ fuel ih =>
    intro p n h
    rw [npo2_loop]
    by_cases hle : n ≤ p
    · rw [if_pos hle]; exact h
    · rw [if_neg hle]
      apply ih
      obtain ⟨j, rfl⟩ := h
      exact ⟨j + 1, by ring⟩

theorem npo2_loop_min : ∀ fuel p n k, p ≤ 2 ^ k → (∃ j, p = 2 ^ j) →
    n ≤ 2 ^ k → npo2_loop fuel p n ≤ 2 ^ k := by
  intro fuel
  induction fuel with
  | zero => intro p n k hp hpow hn; rw [npo2_loop]; exact hp
  | succ fuel ih =>
    intro p n k hp hpow hn
    rw [npo2_loop]
    by_cases hle : n ≤ p
    · rw [if_pos hle]; exact hp
    · rw [if_neg hle]
      obtain ⟨j, rfl⟩ := hpow
      have hjk : j < k := by
        rw [← Nat.pow_lt_pow_iff_right (by omega : 1 < 2)]
        omega
      refine ih (2 * 2 ^ j) n k ?_ ⟨j + 1, by ring⟩ hn
      calc 2 * 2 ^ j = 2 ^ (j + 1) := by ring
        _ ≤ 2 ^ k := Nat.pow_le_pow_right (by omega) (by omega)

/-- `next_power_of_2 n` is indeed the least power of two that is `≥ n`
(for `n ≥ 1`), matching the bit-twiddling implementation in
`torch/_inductor/runtime/runtime_utils.py`. -/
theorem next_power_of_2_spec (n : Nat) (hn : 0 < n) :
    (∃ k, next_power_of_2 n = 2 ^ k) ∧ n ≤ next_power_of_2 n
      ∧ ∀ k, n ≤ 2 ^ k → next_power_of_2 n ≤ 2 ^ k := by
  rw [next_power_of_2, if_neg (by omega)]
  refine ⟨npo2_loop_pow n 1 n ⟨0, rfl⟩, ?_, ?_⟩
  · apply npo2_loop_ge
    have := Nat.lt_two_pow n
    omega
  · intro k hk
    exact npo2_loop_min n 1 n k (Nat.one_le_two_pow) ⟨0, rfl⟩ hk

/-- The `Config` dataclass (source lines 32-36).  Its only fields are `kwargs`,
`num_stages` and `num_warps`; the tile sizes and `NUM_CONSUMER_GROUPS` live
inside the `kwargs` dictionary, modelled as an association list. -/
structure Config where
  kwargs : List (String × Nat)
  num_stages : Nat
  num_warps : Nat
deriving DecidableEq, Repr

/-- Dictionary lookup `config.kwargs[key]` (all lookups in the source are on
keys the generators always populate). -/
def getKw (c : Config) (k : String) : Nat := (c.kwargs.lookup k).getD 0

/-- One element of `_NV_CONFIGS` (source lines 39-55). -/
def mkNVConfig (bm bn bk ns nw : Nat) : Config :=
  ⟨[("BLOCK_M", bm), ("BLOCK_N", bn), ("BLOCK_K", bk), ("NUM_CONSUMER_GROUPS", 1)], ns, nw⟩

/-- The generic (NV) configuration family (source lines 39-55). -/
def _NV_CONFIGS : List Config :=
  [64, 128].flatMap fun bm =>
    [64, 128, 256].flatMap fun bn =>
      [64, 128, 256].flatMap fun bk =>
        [3, 4].flatMap fun ns =>
          [4, 8].map fun nw => mkNVConfig bm bn bk ns nw

/-- One element of `_AMD_CONFIGS` (source lines 57-76). -/
def mkAMDConfig (bm bn bk waves mind ns nw : Nat) : Config :=
  ⟨[("BLOCK_M", bm), ("BLOCK_N", bn), ("BLOCK_K", bk), ("waves_per_eu", waves),
    ("matrix_instr_nonkdim", mind), ("NUM_CONSUMER_GROUPS", 1)], ns, nw⟩

/-- The alternate-vendor (AMD) configuration family (source lines 57-76). -/
def _AMD_CONFIGS : List Config :=
  [32, 64, 128].flatMap fun bm =>
    [32, 64, 128, 256].flatMap fun bn =>
      [128, 256].flatMap fun bk =>
        [1, 2].flatMap fun ns =>
          [(4, 1), (8, 2), (16, 4)].map fun p => mkAMDConfig bm bn bk p.2 16 ns p.1

/-- `scaled_grouped_mm_configs()` (source lines 79-80); `hip` is
`torch.version.hip`. -/
def scaled_grouped_mm_configs (hip : Bool) : List Config :=
  if hip then _AMD_CONFIGS else _NV_CONFIGS

/-- `getattr(config, "num_consumer_groups", 0)` (source line 94).  The `Config`
dataclass declares only the attributes `kwargs`, `num_stages` and `num_warps`
— the generators place `NUM_CONSUMER_GROUPS` inside the `kwargs` dictionary,
not as an attribute of the object — so the attribute lookup always falls back
to the supplied default `0`. -/
def num_consumer_groups_attr (_ : Config) : Nat := 0

/-- `use_warp_specialization = num_consumer_groups >= 1` (source line 116). -/
def use_warp_specialization (c : Config) : Bool :=
  decide (num_consumer_groups_attr c ≥ 1)

/-- `dtsize = 1` (source line 84; the fp8 operands of `_scaled_grouped_mm`
have one-byte elements). -/
def dtsize : Nat := 1

/-- `required_shared_memory` (source lines 109-112): the shared-memory estimate
of a config, per hardware family. -/
def required_shared_memory (hip : Bool) (c : Config) : Nat :=
  if hip then getKw c "BLOCK_N" * getKw c "BLOCK_K" * c.num_stages * dtsize
  else (getKw c "BLOCK_M" + getKw c "BLOCK_N") * getKw c "BLOCK_K" * c.num_stages * dtsize

/-- The `named_args` entries read by `early_config_prune`
(source lines 96-102). -/
structure NamedArgs where
  G : Nat
  M : Nat
  N : Nat
  M_IS_DYNAMIC : Bool
  N_IS_DYNAMIC : Bool
deriving DecidableEq, Repr

/-- `M_PER_GROUP = next_power_of_2(M) // G if M_IS_DYNAMIC else M`
(source line 103). -/
def m_per_group (a : NamedArgs) : Nat :=
  if a.M_IS_DYNAMIC then next_power_of_2 a.M / a.G else a.M

/-- `N_PER_GROUP = next_power_of_2(N) // G if N_IS_DYNAMIC else N`
(source line 104). -/
def n_per_group (a : NamedArgs) : Nat :=
  if a.N_IS_DYNAMIC then next_power_of_2 a.N / a.G else a.N

/-- Checks 2-6 of `early_config_prune` (source lines 116-154): the oversized /
undersized M- and N-tile checks and the warp-specialization partitioning check.
`numSms` is `get_num_sms()`.  Returns `true` when the config is kept. -/
def tile_checks (hip : Bool) (numSms : Nat) (a : NamedArgs) (config : Config) : Bool :=
  let BLOCK_M := getKw config "BLOCK_M"
  let BLOCK_N := getKw config "BLOCK_N"
  let num_warps := config.num_warps
  let ncg := num_consumer_groups_attr config
  let use_ws := use_warp_specialization config
  let MPG := m_per_group a
  let NPG := n_per_group a
  let MIN_M_TILES := if hip then 32 else 64
  if use_ws = false ∧ BLOCK_M > MIN_M_TILES ∧ BLOCK_M > MPG * 2 then false
  else if BLOCK_M < 128 ∧ BLOCK_M < MPG / 2 then false
  else
    let N_TILES := NPG / BLOCK_N
    let MIN_N_TILES := if hip then 32 else 64
    if use_ws = false ∧ BLOCK_N > MIN_N_TILES ∧ a.G * MPG * N_TILES < numSms then false
    else if BLOCK_N < 128 ∧ a.G * MPG * N_TILES > 2 * numSms then false
    else if use_ws then
      if num_warps ≠ 4 then false
      else if BLOCK_M / ncg < 64 ∧ BLOCK_N / ncg < 256 then false
      else true
    else true

/-- `early_config_prune(configs, named_args)` (source lines 83-158), with the
device queries `get_gpu_shared_memory()` (`maxShared`) and `get_num_sms()`
(`numSms`) and `torch.version.hip` (`hip`) as parameters.  A config is kept iff
it passes the shared-memory bound (check 1, lines 106-114) and then
`tile_checks` (checks 2-6). -/
def early_config_prune (hip : Bool) (maxShared numSms : Nat)
    (configs : List Config) (a : NamedArgs) : List Config :=
  configs.filter fun config =>
    if required_shared_memory hip config > maxShared then false
    else tile_checks hip numSms a config

example : required_shared_memory false (mkNVConfig 64 64 64 3 8) = 24576 := by decide

example : mkNVConfig 64 64 64 3 8 ∈
    early_config_prune false 1000000 32 [mkNVConfig 64 64 64 3 8]
      ⟨1, 64, 64, false, false⟩ := by decide

/-- Python negative index `l[-1]` on a shape list. -/
def idxm1 (l : List Nat) : Nat := l.getD (l.length - 1) 0

/-- Python negative index `l[-2]` on a shape list. -/
def idxm2 (l : List Nat) : Nat := l.getD (l.length - 2) 0

/-- `can_use_triton_kernel(mat_a, mat_b, offs, bias)` (source lines 431-456).
`has_tma` is `has_triton_tma_device()`; `offs_present` / `bias_present` model
`offs is not None` / `bias is not None`; `m1_size` / `m2_size` are
`mat_a.get_size()` / `mat_b.get_size()`.  Shape conventions (see lines 511-534
and 557-565): 2-D `mat_a` is `[M, K]`, 3-D `mat_a` is `[G, M, K]`; `mat_b` is
`[K, N]` resp. `[G, K, N]` (its last two dims are transposed in *strides*,
not in shape). -/
def can_use_triton_kernel (has_tma : Bool) (m1_size m2_size : List Nat)
    (offs_present bias_present : Bool) : Bool :=
  if has_tma = false then false
  else if bias_present then false
  else if m1_size.length = 2 then
    if m2_size.length = 2 then offs_present && decide (idxm1 m2_size ≥ 32)
    else offs_present && decide (idxm1 m1_size ≥ 32) && decide (idxm2 m2_size ≥ 32)
  else
    if m2_size.length = 2 then offs_present && decide (idxm2 m2_size ≥ 32)
    else !offs_present && decide (idxm1 m1_size ≥ 32) && decide (idxm1 m2_size ≥ 32)

/-- The eligibility table exactly as claim C3 words it, with the semantic
dimensions read off the shapes: for `mat_a` `[M, K]`/`[G, M, K]` the
contraction dim is `K = m1_size[-1]`; for `mat_b` `[K, N]`/`[G, K, N]` the
output dim is `N = m2_size[-1]`.  Rows: A 2-D & B 2-D → offsets present and
`N ≥ 32`; A 2-D & B 3-D → offsets present and `K ≥ 32` and `N ≥ 32`;
A 3-D & B 2-D → offsets present and `N ≥ 32`; A 3-D & B 3-D → offsets absent
and `K ≥ 32` and `N ≥ 32`. -/
def claim_gate_table (has_tma : Bool) (m1_size m2_size : List Nat)
    (offs_present bias_present : Bool) : Bool :=
  has_tma && !bias_present &&
    (if m1_size.length = 2 then
      if m2_size.length = 2 then offs_present && decide (idxm1 m2_size ≥ 32)
      else offs_present && decide (idxm1 m1_size ≥ 32) && decide (idxm1 m2_size ≥ 32)
    else
      if m2_size.length = 2 then offs_present && decide (idxm1 m2_size ≥ 32)
      else !offs_present && decide (idxm1 m1_size ≥ 32) && decide (idxm1 m2_size ≥ 32))

/-- The eligibility table amended to what the code checks: in the
A 2-D & B 3-D and A 3-D & B 2-D rows the second threshold is on the operands'
contraction dimension `K` (`m1_size[-1]` resp. `m2_size[-2]`), not on `N`. -/
def amended_gate_table (has_tma : Bool) (m1_size m2_size : List Nat)
    (offs_present bias_present : Bool) : Bool :=
  has_tma && !bias_present &&
    (if m1_size.length = 2 then
      if m2_size.length = 2 then offs_present && decide (idxm1 m2_size ≥ 32)
      else offs_present && decide (idxm1 m1_size ≥ 32) && decide (idxm2 m2_size ≥ 32)
    else
      if m2_size.length = 2 then offs_present && decide (idxm2 m2_size ≥ 32)
      else !offs_present && decide (idxm1 m1_size ≥ 32) && decide (idxm1 m2_size ≥ 32))

/-- The part of a `FixedLayout` the claims observe: the output dtype and the
output size (`dims`). -/
structure Layout where
  dtype : Nat
  size : List Nat
deriving DecidableEq, Repr

/-- `grouped_mm_args(mat1, mat2, offs, layout, out_dtype)` (source lines
376-420), restricted to the layout result (realization of the inputs is a
no-op for the shapes).  `offs` is modelled by its length `offs.get_size()[0]`
(the group count); `mat1_dtype` is `mat1.get_dtype()`.  The two rank asserts
(lines 391-392), the `offs is not None` assert of the 2-D/2-D case (line 403)
and the `out_dtype is None` assert of the explicit-layout branch (line 418)
are modelled as errors. -/
def grouped_mm_args (m1_size m2_size : List Nat) (offs : Option Nat)
    (layout : Option Layout) (out_dtype : Option Nat) (mat1_dtype : Nat) :
    Except String Layout :=
  if ¬(m1_size.length = 2 ∨ m1_size.length = 3) then .error "assert m1dim == 2 or m1dim == 3"
  else if ¬(m2_size.length = 2 ∨ m2_size.length = 3) then .error "assert m2dim == 2 or m2dim == 3"
  else
    match layout with
    | none =>
      let od := out_dtype.getD mat1_dtype
      if m1_size.length = 2 then
        if m2_size.length = 2 then
          match offs with
          | none => .error "assert offs is not None"
          | some g => .ok ⟨od, [g, m1_size.getD 0 0, m2_size.getD 1 0]⟩
        else .ok ⟨od, [m1_size.getD 0 0, idxm1 m2_size]⟩
      else
        if m2_size.length = 2 then .ok ⟨od, [m1_size.getD 1 0, m2_size.getD 1 0]⟩
        else .ok ⟨od, [m1_size.getD 0 0, m1_size.getD 1 0, idxm1 m2_size]⟩
    | some L =>
      if out_dtype.isSome then .error "out_dtype is ignored if layout is specified."
      else .ok L

/-- The `(m_is_dynamic, n_is_dynamic, k_is_dynamic)` assignment of
`tuned_scaled_grouped_mm` as a function of the operand ranks (source lines
511-534). -/
def dynamic_flags (m1dim m2dim : Nat) : Bool × Bool × Bool :=
  if m1dim = 2 then
    if m2dim = 2 then (false, false, true)
    else (true, false, false)
  else
    if m2dim = 2 then (false, true, false)
    else (false, false, false)

/-! ### The scale-and-store epilogue of `triton_scaled_grouped_mm_source` -/

/-- `offs_am = tile_m_idx * BLOCK_M + tl.arange(0, BLOCK_M)`, at lane `r`
(template lines 321, 286). -/
def offs_am (BM tileM r : Nat) : Nat := tileM * BM + r

/-- `offs_bn = tile_n_idx * BLOCK_N + tl.arange(0, BLOCK_N)`, at lane `c`
(template lines 322, 287). -/
def offs_bn (BN tileN c : Nat) : Nat := tileN * BN + c

/-- `m_scale_start_offset` as set in the group loop (template lines 206-218):
`m_start_offset` when `M_IS_DYNAMIC`, else `g * M` (only defined — and only
used — with a 2-D `A` in the static case). -/
def m_scale_start_offset (mDyn : Bool) (g M mStartOffset : Nat) : Nat :=
  if mDyn then mStartOffset else g * M

/-- `n_scale_start_offset` (template lines 221-233). -/
def n_scale_start_offset (nDyn : Bool) (g N nStartOffset : Nat) : Nat :=
  if nDyn then nStartOffset else g * N

/-- Offset from `scale_a_ptr` of the row scale loaded for lane `r`
(template lines 323-332): `m_scale_start_offset + offs_am` when `A` is 2-D,
`g * SCALE_A_STRIDE_G + offs_am` when `A` is 3-D. -/
def scale_a_addr (aIs2d mDyn : Bool) (g M mStartOffset scaleAStrideG BM tileM r : Nat) : Nat :=
  (if aIs2d then m_scale_start_offset mDyn g M mStartOffset
   else g * scaleAStrideG) + offs_am BM tileM r

/-- Offset from `scale_b_ptr` of the column scale loaded for lane `c`
(template lines 333-342). -/
def scale_b_addr (bIs2d nDyn : Bool) (g N nStartOffset scaleBStrideG BN tileN c : Nat) : Nat :=
  (if bIs2d then n_scale_start_offset nDyn g N nStartOffset
   else g * scaleBStrideG) + offs_bn BN tileN c

/-- `c = accumulator.to(tl.float32) * scale_a * scale_b` (template line 343). -/
def c_value (acc scale_a scale_b : ℚ) : ℚ := acc * scale_a * scale_b

/-- `idx_m` (template lines 345-349): absolute row
`m_start_offset + offs_am` when `M_IS_DYNAMIC`, else `offs_am`. -/
def idx_m (mDyn : Bool) (mStartOffset BM tileM r : Nat) : Nat :=
  if mDyn then mStartOffset + offs_am BM tileM r else offs_am BM tileM r

/-- `idx_n` (template lines 350-354). -/
def idx_n (nDyn : Bool) (nStartOffset BN tileN c : Nat) : Nat :=
  if nDyn then nStartOffset + offs_bn BN tileN c else offs_bn BN tileN c

/-- The output-store coordinates (template lines 358-362): `("g", idx_m, idx_n)`
when neither `M` nor `N` is dynamic, `(idx_m, idx_n)` otherwise. -/
def store_coords (mDyn nDyn : Bool) (g im iN : Nat) : List Nat :=
  if mDyn || nDyn then [im, iN] else [g, im, iN]

/-- `mask = offs_am[:, None] < m_size and offs_bn[None, :] < n_size`
(template line 356), at lane `(r, c)`. -/
def store_mask (BM BN tileM tileN m_size n_size r c : Nat) : Bool :=
  decide (offs_am BM tileM r < m_size) && decide (offs_bn BN tileN c < n_size)

/-! ### The persistent-kernel tile scheduler (template lines 195-365) -/

/-- The inner `while tidx >= iterated_tiles and tidx < iterated_tiles + num_tiles`
loop of the template (lines 249-363), projected onto tile enumeration: while the
condition holds, the context decodes `gidx = tidx - iterated_tiles`,
`tile_m_idx = gidx % num_m_tiles`, `tile_n_idx = gidx // num_m_tiles`, processes
that tile of group `g`, and advances `tidx += NUM_SMS` (the stride `s`).
Returns the processed `(g, tile_m_idx, tile_n_idx)` work items in order together
with the final `tidx`.  Structural recursion over `fuel`: since the stride is at
least 1 the loop runs at most `numTiles` times, so the caller passes
`fuel = numTiles` and the fuel never runs out (see `whileTiles_spec`). -/
def whileTiles (s g numM iterated numTiles : Nat) :
    Nat → Nat → List (Nat × Nat × Nat) × Nat
  | 0, tidx => ([], tidx)
  | fuel + 1, tidx =>
    if iterated ≤ tidx ∧ tidx < iterated + numTiles then
      let gidx := tidx - iterated
      let rest := whileTiles s g numM iterated numTiles fuel (tidx + s)
      ((g, gidx % numM, gidx / numM) :: rest.1, rest.2)
    else ([], tidx)

/-- Per-context loop state: the context's global tile index `tidx`, the
`iterated_tiles` counter, and the running `m_end_offset` / `n_end_offset`
cursors. -/
structure KState where
  tidx : Nat
  iterated : Nat
  mEnd : Nat
  nEnd : Nat
deriving DecidableEq, Repr

/-- The group loop `for g in tl.range(G)` of the template (lines 195-365),
projected onto tile enumeration, for one execution context, starting at group
`g` with `cnt` groups left.  Mirrors the source: when `M_IS_DYNAMIC` the
`m_end_offset` cursor is advanced (even for groups that end up skipped) and
`m_size = m_end_offset - m_start_offset`, otherwise `m_size = M`; a group with
`m_size = 0` is skipped without touching the `n` cursor (the whole `n`/`k`
bookkeeping sits inside `if m_size > 0`); otherwise `n_size` is resolved the
same way, `num_m_tiles = cdiv(m_size, BLOCK_M)`,
`num_n_tiles = cdiv(n_size, BLOCK_N)`, the `while` loop consumes this context's
tiles of the group, and `iterated_tiles += num_tiles`. -/
def simGroups (mDyn nDyn : Bool) (offs : Nat → Nat) (M N BM BN s : Nat) :
    Nat → Nat → KState → List (Nat × Nat × Nat)
  | _, 0, _ => []
  | g, cnt + 1, st =>
    let mStart := if mDyn then st.mEnd else 0
    let mEnd := if mDyn then offs g else st.mEnd
    let mSize := if mDyn then mEnd - mStart else M
    if 0 < mSize then
      let nStart := if nDyn then st.nEnd else 0
      let nEnd := if nDyn then offs g else st.nEnd
      let nSize := if nDyn then nEnd - nStart else N
      let numM := cdiv mSize BM
      let numN := cdiv nSize BN
      let numTiles := numM * numN
      let r := whileTiles s g numM st.iterated numTiles numTiles st.tidx
      r.1 ++ simGroups mDyn nDyn offs M N BM BN s (g + 1) cnt
        ⟨r.2, st.iterated + numTiles, mEnd, nEnd⟩
    else
      simGroups mDyn nDyn offs M N BM BN s (g + 1) cnt ⟨st.tidx, st.iterated, mEnd, st.nEnd⟩

/-- All `NUM_SMS` execution contexts (`tidx = tl.program_id(0) ∈ [0, s)`, each
advancing by `NUM_SMS`), run over groups `0 .. G-1` from the template's initial
state (`iterated_tiles = 0`, offset cursors `0`). -/
def simAll (mDyn nDyn : Bool) (offs : Nat → Nat) (M N BM BN G s : Nat) :
    List (Nat × Nat × Nat) :=
  (List.range s).flatMap fun t0 =>
    simGroups mDyn nDyn offs M N BM BN s 0 G ⟨t0, 0, 0, 0⟩

/-- `offsets[g-1]`, with the convention `prevOff offs 0 = 0`: the running start
offset of group `g` in the dynamic case. -/
def prevOff (offs : Nat → Nat) : Nat → Nat
  | 0 => 0
  | g + 1 => offs g

/-- The per-group row extent: `offsets[g] - offsets[g-1]` when `M` is dynamic,
the static `M` otherwise. -/
def refMsize (mDyn : Bool) (offs : Nat → Nat) (M g : Nat) : Nat :=
  if mDyn then offs g - prevOff offs g else M

/-- The per-group column extent. -/
def refNsize (nDyn : Bool) (offs : Nat → Nat) (N g : Nat) : Nat :=
  if nDyn then offs g - prevOff offs g else N

/-- `num_m_tiles = ceil(m_size / BLOCK_M)` of group `g`. -/
def numMTiles (mDyn : Bool) (offs : Nat → Nat) (M BM g : Nat) : Nat :=
  cdiv (refMsize mDyn offs M g) BM

/-- `num_n_tiles = ceil(n_size / BLOCK_N)` of group `g`. -/
def numNTiles (nDyn : Bool) (offs : Nat → Nat) (N BN g : Nat) : Nat :=
  cdiv (refNsize nDyn offs N g) BN

/-- The number of tiles group `g` contributes to `iterated_tiles`
(`0` when the group is skipped because `m_size = 0`). -/
def groupTiles (mDyn nDyn : Bool) (offs : Nat → Nat) (M N BM BN g : Nat) : Nat :=
  if 0 < refMsize mDyn offs M g then
    numMTiles mDyn offs M BM g * numNTiles nDyn offs N BN g
  else 0

/-- `iterated_tiles` on entry to group `g`: the prefix sum of `groupTiles`. -/
def prefixTiles (mDyn nDyn : Bool) (offs : Nat → Nat) (M N BM BN : Nat) : Nat → Nat
  | 0 => 0
  | g + 1 => prefixTiles mDyn nDyn offs M N BM BN g + groupTiles mDyn nDyn offs M N BM BN g

/-- The Cartesian product of group `g`'s M-tile range and N-tile range, when
the group has nonzero row and column extent (empty otherwise). -/
def refGroup (mDyn nDyn : Bool) (offs : Nat → Nat) (M N BM BN g : Nat) :
    List (Nat × Nat × Nat) :=
  if 0 < refMsize mDyn offs M g ∧ 0 < refNsize nDyn offs N g then
    (List.range (numMTiles mDyn offs M BM g)).flatMap fun i =>
      (List.range (numNTiles nDyn offs N BN g)).map fun j => (g, i, j)
  else []

/-- The reference enumeration of claim C1: the union, over groups with nonzero
row and column extent, of the Cartesian product of the group's M-tile range and
N-tile range. -/
def refEnum (mDyn nDyn : Bool) (offs : Nat → Nat) (M N BM BN G : Nat) :
    List (Nat × Nat × Nat) :=
  (List.range G).flatMap fun g => refGroup mDyn nDyn offs M N BM BN g

example :
    (simAll true false (fun g => [3, 3, 8].getD g 8) 0 4 2 3 3 2 :
      Multiset (Nat × Nat × Nat))
      = (refEnum true false (fun g => [3, 3, 8].getD g 8) 0 4 2 3 3 :
          Multiset (Nat × Nat × Nat)) := by decide

example :
    (simAll false true (fun g => [2, 7].getD g 7) 5 0 2 3 2 3 :
      Multiset (Nat × Nat × Nat))
      = (refEnum false true (fun g => [2, 7].getD g 7) 5 0 2 3 2 :
          Multiset (Nat × Nat × Nat)) := by decide

example : (simAll false false (fun _ => 0) 5 7 2 3 2 4 : Multiset (Nat × Nat × Nat))
    = (refEnum false false (fun _ => 0) 5 7 2 3 2 : Multiset (Nat × Nat × Nat)) := by
  decide

/-! ### Arithmetic helpers for the scheduler proof -/

/-- Two numbers in the same residue class modulo `s` that are strictly ordered
differ by at least `s`. -/
theorem mod_add_le_of_lt (s a b : Nat) (hs : 0 < s) (h : a % s = b % s)
    (hlt : b < a) : b + s ≤ a := by
  have ha := Nat.div_add_mod a s
  have hb := Nat.div_add_mod b s
  have hq : b / s < a / s := by
    rcases Nat.lt_or_ge (b / s) (a / s) with h1 | h1
    · exact h1
    · exfalso
      have h2 : s * (a / s) ≤ s * (b / s) := Nat.mul_le_mul_left s h1
      have h3 : a ≤ b := by
        rw [← ha, ← hb, h]
        exact Nat.add_le_add_right h2 _
      exact absurd h3 (Nat.not_le.mpr hlt)
  have h4 : s * (b / s + 1) ≤ s * (a / s) := Nat.mul_le_mul_left s hq
  calc b + s = s * (b / s) + b % s + s := by rw [hb]
    _ = s * (b / s + 1) + b % s := by ring
    _ ≤ s * (a / s) + b % s := Nat.add_le_add_right h4 _
    _ = s * (a / s) + a % s := by rw [h]
    _ = a := ha

/-- The tile decode `j ↦ (j % m, j / m)` is injective (for any `m`). -/
theorem decode_inj (m j k : Nat) (h1 : j % m = k % m) (h2 : j / m = k / m) :
    j = k := by
  have hj := (Nat.div_add_mod j m).symm
  have hk := (Nat.div_add_mod k m).symm
  rw [hj, hk, h1, h2]

/-- Characterization of one run of the persistent-kernel `while` loop, for a
context entering with global tile index `t ≥ iterated` and enough fuel: it
emits exactly the tiles of this group whose global index lies in the context's
residue class modulo the stride `s`, without duplicates, in particular leaving
`tidx` in the same residue class, at or beyond the end of the group's index
window, and (unless it never entered the loop) less than one stride past it. -/
theorem whileTiles_spec (s g numM S nt : Nat) (hs : 0 < s) :
    ∀ fuel t, S ≤ t → S + nt ≤ t + fuel →
      ((∀ x, x ∈ (whileTiles s g numM S nt fuel t).1 ↔
          ∃ j, j < nt ∧ t ≤ S + j ∧ (S + j) % s = t % s ∧
            x = (g, j % numM, j / numM))
        ∧ (whileTiles s g numM S nt fuel t).1.Nodup
        ∧ (whileTiles s g numM S nt fuel t).2 % s = t % s
        ∧ S + nt ≤ (whileTiles s g numM S nt fuel t).2
        ∧ ((whileTiles s g numM S nt fuel t).2 = t
            ∨ (whileTiles s g numM S nt fuel t).2 < S + nt + s)) := by
  intro fuel
  induction fuel with
  | zero =>
    intro t hSt hnt
    simp only [whileTiles]
    refine ⟨?_, List.nodup_nil, trivial, by omega, by left; trivial⟩
    intro x
    simp only [List.not_mem_nil, false_iff]
    rintro ⟨j, hj, htj, -, -⟩
    omega
  | succ fuel ih =>
    intro t hSt hnt
    by_cases h : S ≤ t ∧ t < S + nt
    · have hrec := ih (t + s) (by omega) (by omega)
      obtain ⟨ihmem, ihnd, ihmod, ihge, ihlt⟩ := hrec
      have hmod : (t + s) % s = t % s := Nat.add_mod_right t s
      simp only [whileTiles, if_pos h]
      refine ⟨?_, ?_, ?_, ?_, ?_⟩
      · intro x
        simp only [List.mem_cons]
        constructor
        · rintro (rfl | hx)
          · refine ⟨t - S, by omega, by omega, ?_, rfl⟩
            have hts : S + (t - S) = t := by omega
            rw [hts]
          · obtain ⟨j, hj, htj, hjm, hxe⟩ := ihmem x |>.mp hx
            exact ⟨j, hj, by omega, by rw [hjm, hmod], hxe⟩
        · rintro ⟨j, hj, htj, hjm, rfl⟩
          by_cases hje : S + j = t
          · left
            have : j = t - S := by omega
            rw [this]
          · right
            have hlt2 : t < S + j := by omega
            have : t + s ≤ S + j := mod_add_le_of_lt s (S + j) t hs hjm hlt2
            exact (ihmem _).mpr ⟨j, hj, this, by rw [hjm, hmod], rfl⟩
      · refine List.Nodup.cons ?_ ihnd
        intro hin
        obtain ⟨j, hj, htj, hjm, hxe⟩ := (ihmem _).mp hin
        have h1 : j % numM = (t - S) % numM := by
          have := congrArg (fun p : Nat × Nat × Nat => p.2.1) hxe
          simpa using this.symm
        have h2 : j / numM = (t - S) / numM := by
          have := congrArg (fun p : Nat × Nat × Nat => p.2.2) hxe
          simpa using this.symm
        have : j = t - S := decode_inj numM j (t - S) h1 h2
        omega
      · rw [ihmod, hmod]
      · exact ihge
      · rcases ihlt with h1 | h1
        · right; omega
        · right; exact h1
    · simp only [whileTiles, if_neg h]
      refine ⟨?_, List.nodup_nil, trivial, by omega, by left; trivial⟩
      intro x
      simp only [List.not_mem_nil, false_iff]
      rintro ⟨j, hj, htj, -, -⟩
      omega

/-- One unfolding step of the group loop, with the offset cursors rewritten to
their invariant values `offsets[g-1]`: the group's extents are then the
reference extents `refMsize` / `refNsize`. -/
theorem simGroups_succ_eq (mDyn nDyn : Bool) (offs : Nat → Nat)
    (M N BM BN s g cnt : Nat) (st : KState)
    (hmE : mDyn = true → st.mEnd = prevOff offs g)
    (hnE : nDyn = true → st.nEnd = prevOff offs g) :
    simGroups mDyn nDyn offs M N BM BN s g (cnt + 1) st =
      if 0 < refMsize mDyn offs M g then
        (whileTiles s g (numMTiles mDyn offs M BM g) st.iterated
            (numMTiles mDyn offs M BM g * numNTiles nDyn offs N BN g)
            (numMTiles mDyn offs M BM g * numNTiles nDyn offs N BN g) st.tidx).1
          ++ simGroups mDyn nDyn offs M N BM BN s (g + 1) cnt
            ⟨(whileTiles s g (numMTiles mDyn offs M BM g) st.iterated
                (numMTiles mDyn offs M BM g * numNTiles nDyn offs N BN g)
                (numMTiles mDyn offs M BM g * numNTiles nDyn offs N BN g) st.tidx).2,
              st.iterated + numMTiles mDyn offs M BM g * numNTiles nDyn offs N BN g,
              if mDyn then offs g else st.mEnd,
              if nDyn then offs g else st.nEnd⟩
      else
        simGroups mDyn nDyn offs M N BM BN s (g + 1) cnt
          ⟨st.tidx, st.iterated, if mDyn then offs g else st.mEnd, st.nEnd⟩ := by
  cases mDyn with
  | false =>
    cases nDyn with
    | false => simp [simGroups, refMsize, refNsize, numMTiles, numNTiles]
    | true =>
      have hne := hnE rfl
      simp [simGroups, refMsize, refNsize, numMTiles, numNTiles, hne]
  | true =>
    have hme := hmE rfl
    cases nDyn with
    | false => simp [simGroups, refMsize, refNsize, numMTiles, numNTiles, hme]
    | true =>
      have hne := hnE rfl
      simp [simGroups, refMsize, refNsize, numMTiles, numNTiles, hme, hne]

/-- The degenerate static problem `M = 0`: every group is skipped and no tile
is ever produced. -/
theorem simGroups_M_zero (nDyn : Bool) (offs : Nat → Nat) (N BM BN s : Nat) :
    ∀ cnt g st, simGroups false nDyn offs 0 N BM BN s g cnt st = [] := by
  intro cnt
  induction cnt with
  | zero => intro g st; simp [simGroups]
  | succ cnt ih =>
    intro g st
    simp only [simGroups]
    simp only [Bool.false_eq_true, if_false, Nat.lt_irrefl, ite_false]
    exact ih (g + 1) _

/-- Characterization of the group loop for one execution context, by induction
over the remaining groups, under the loop invariants of the persistent kernel:
`iterated_tiles` equals the tile-count prefix sum, the context's global tile
index lies in its residue class modulo the stride within one stride of
`iterated_tiles`, and the offset cursors hold `offsets[g-1]`.  The context
processes exactly the work items whose global tile index is congruent to its
own, each once.  `hmn` reflects that the kernel is never instantiated with both
`M` and `N` dynamic (see `dynamic_flags`); `hM` excludes the degenerate static
`M = 0` problem, which is handled separately by `simGroups_M_zero`. -/
theorem simGroups_spec (mDyn nDyn : Bool) (offs : Nat → Nat) (M N BM BN s : Nat)
    (hs : 0 < s) (hmn : mDyn = false ∨ nDyn = false) (hM : mDyn = true ∨ 0 < M) :
    ∀ cnt g0 st,
      st.iterated = prefixTiles mDyn nDyn offs M N BM BN g0 →
      st.iterated ≤ st.tidx →
      st.tidx < st.iterated + s →
      (mDyn = true → st.mEnd = prevOff offs g0) →
      (nDyn = true → st.nEnd = prevOff offs g0) →
      ((∀ x, x ∈ simGroups mDyn nDyn offs M N BM BN s g0 cnt st ↔
          ∃ g, g0 ≤ g ∧ g < g0 + cnt ∧ 0 < refMsize mDyn offs M g ∧
            ∃ j, j < numMTiles mDyn offs M BM g * numNTiles nDyn offs N BN g ∧
              (prefixTiles mDyn nDyn offs M N BM BN g + j) % s = st.tidx % s ∧
              x = (g, j % numMTiles mDyn offs M BM g,
                    j / numMTiles mDyn offs M BM g))
        ∧ (simGroups mDyn nDyn offs M N BM BN s g0 cnt st).Nodup) := by
  intro cnt
  induction cnt with
  | zero =>
    intro g0 st hIter hLe hLt hmE hnE
    constructor
    · intro x
      constructor
      · intro hx; simp [simGroups] at hx
      · rintro ⟨g, hg1, hg2, -⟩; omega
    · simp [simGroups]
  | succ cnt ih =>
    intro g0 st hIter hLe hLt hmE hnE
    rw [simGroups_succ_eq mDyn nDyn offs M N BM BN s g0 cnt st hmE hnE]
    by_cases hpos : 0 < refMsize mDyn offs M g0
    · rw [if_pos hpos]
      obtain ⟨wmem, wnd, wmod, wge, wdis⟩ :=
        whileTiles_spec s g0 (numMTiles mDyn offs M BM g0) st.iterated
          (numMTiles mDyn offs M BM g0 * numNTiles nDyn offs N BN g0) hs
          (numMTiles mDyn offs M BM g0 * numNTiles nDyn offs N BN g0) st.tidx
          hLe (by omega)
      have hgt : groupTiles mDyn nDyn offs M N BM BN g0
          = numMTiles mDyn offs M BM g0 * numNTiles nDyn offs N BN g0 := by
        rw [groupTiles, if_pos hpos]
      have hpre : prefixTiles mDyn nDyn offs M N BM BN (g0 + 1)
          = st.iterated + numMTiles mDyn offs M BM g0 * numNTiles nDyn offs N BN g0 := by
        show prefixTiles mDyn nDyn offs M N BM BN g0
            + groupTiles mDyn nDyn offs M N BM BN g0 = _
        rw [← hIter, hgt]
      obtain ⟨ihmem, ihnd⟩ :=
        ih (g0 + 1)
          ⟨(whileTiles s g0 (numMTiles mDyn offs M BM g0) st.iterated
              (numMTiles mDyn offs M BM g0 * numNTiles nDyn offs N BN g0)
              (numMTiles mDyn offs M BM g0 * numNTiles nDyn offs N BN g0) st.tidx).2,
            st.iterated + numMTiles mDyn offs M BM g0 * numNTiles nDyn offs N BN g0,
            if mDyn then offs g0 else st.mEnd,
            if nDyn then offs g0 else st.nEnd⟩
          hpre.symm wge (by dsimp only; rcases wdis with h1 | h1 <;> omega)
          (by intro h; rw [h]; simp [prevOff])
          (by intro h; rw [h]; simp [prevOff])
      have htight : ∀ j, (st.iterated + j) % s = st.tidx % s → st.tidx ≤ st.iterated + j := by
        intro j hjm
        by_contra hcon
        push_neg at hcon
        have := mod_add_le_of_lt s st.tidx (st.iterated + j) hs hjm.symm hcon
        omega
      constructor
      · intro x
        rw [List.mem_append]
        constructor
        · rintro (hx | hx)
          · obtain ⟨j, hj, -, hjm, rfl⟩ := (wmem x).mp hx
            refine ⟨g0, le_refl g0, by omega, hpos, j, hj, ?_, rfl⟩
            rw [← hIter]; exact hjm
          · obtain ⟨g, hg1, hg2, hgpos, j, hj, hjm, rfl⟩ := (ihmem x).mp hx
            refine ⟨g, by omega, by omega, hgpos, j, hj, ?_, rfl⟩
            rw [hjm]; exact wmod
        · rintro ⟨g, hg1, hg2, hgpos, j, hj, hjm, rfl⟩
          by_cases hgg : g = g0
          · subst hgg
            left
            apply (wmem _).mpr
            refine ⟨j, hj, ?_, ?_, rfl⟩
            · apply htight
              rw [hIter]
              exact hjm
            · rw [hIter]
              exact hjm
          · right
            apply (ihmem _).mpr
            refine ⟨g, by omega, by omega, hgpos, j, hj, ?_, rfl⟩
            rw [hjm, ← wmod]
      · refine List.Nodup.append wnd ihnd ?_
        intro x hx1 hx2
        obtain ⟨j, -, -, -, hx⟩ := (wmem x).mp hx1
        obtain ⟨g, hg1, -, -, j2, -, -, hx2e⟩ := (ihmem x).mp hx2
        rw [hx] at hx2e
        have := congrArg Prod.fst hx2e
        simp at this
        omega
    · rw [if_neg hpos]
      have hgt : groupTiles mDyn nDyn offs M N BM BN g0 = 0 := by
        rw [groupTiles, if_neg hpos]
      have hpre : prefixTiles mDyn nDyn offs M N BM BN (g0 + 1) = st.iterated := by
        show prefixTiles mDyn nDyn offs M N BM BN g0
            + groupTiles mDyn nDyn offs M N BM BN g0 = _
        rw [← hIter, hgt]
        omega
      have hmd : mDyn = true := by
        rcases hM with h | h
        · exact h
        · by_contra hmd
          have hmf : mDyn = false := by
            cases mDyn
            · rfl
            · exact absurd rfl hmd
          apply hpos
          rw [refMsize, hmf]
          simpa using h
      have hnd : nDyn = false := by
        rcases hmn with h | h
        · rw [hmd] at h; exact absurd h (by simp)
        · exact h
      obtain ⟨ihmem, ihnd⟩ :=
        ih (g0 + 1) ⟨st.tidx, st.iterated, if mDyn then offs g0 else st.mEnd, st.nEnd⟩
          hpre.symm hLe hLt
          (by intro h; rw [h]; simp [prevOff])
          (by intro h; rw [hnd] at h; exact absurd h (by simp))
      constructor
      · intro x
        rw [ihmem x]
        constructor
        · rintro ⟨g, hg1, hg2, hgpos, j, hj, hjm, rfl⟩
          exact ⟨g, by omega, by omega, hgpos, j, hj, hjm, rfl⟩
        · rintro ⟨g, hg1, hg2, hgpos, j, hj, hjm, rfl⟩
          have hgg : g ≠ g0 := by
            intro h; rw [h] at hgpos; exact absurd hgpos hpos
          exact ⟨g, by omega, by omega, hgpos, j, hj, hjm, rfl⟩
      · exact ihnd

/-- No-duplicates for a `flatMap` over `List.range` when membership pins down
the range index. -/
theorem nodup_flatMap_range {β : Type} (n : Nat) (f : Nat → List β)
    (hnd : ∀ i, i < n → (f i).Nodup)
    (hdisj : ∀ i j x, i < n → j < n → x ∈ f i → x ∈ f j → i = j) :
    ((List.range n).flatMap f).Nodup := by
  apply List.nodup_flatMap.mpr
  constructor
  · intro i hi
    exact hnd i (List.mem_range.mp hi)
  · refine List.pairwise_iff_get.mpr ?_
    intro i j hij
    have hi : ((List.range n).get i) < n := by
      rw [List.get_eq_getElem, List.getElem_range]
      simpa using i.isLt
    have hj : ((List.range n).get j) < n := by
      rw [List.get_eq_getElem, List.getElem_range]
      simpa using j.isLt
    have hne : (List.range n).get i ≠ (List.range n).get j := by
      intro he
      have hnd2 := List.nodup_range n
      have := List.Nodup.get_inj_iff hnd2 |>.mp he
      rw [this] at hij
      exact lt_irrefl _ hij
    simp only [Function.onFun]
    intro x hxi hxj
    exact hne (hdisj _ _ x hi hj hxi hxj)

/-- `ceil(0 / b) = 0`. -/
theorem cdiv_zero_left (b : Nat) : cdiv 0 b = 0 := by
  rw [cdiv]
  cases b with
  | zero => rfl
  | succ b => exact Nat.div_eq_of_lt (by omega)

/-- Decoding `j ↦ (j % m, j / m)` carries `range (m * n)` exactly onto the
Cartesian product `range m × range n`. -/
theorem decode_range_iff (g m n : Nat) (x : Nat × Nat × Nat) :
    (∃ j, j < m * n ∧ x = (g, j % m, j / m)) ↔
      (∃ i, i < m ∧ ∃ jn, jn < n ∧ x = (g, i, jn)) := by
  constructor
  · rintro ⟨j, hj, rfl⟩
    have hm : 0 < m := by
      rcases Nat.eq_zero_or_pos m with h | h
      · subst h; simp at hj
      · exact h
    refine ⟨j % m, Nat.mod_lt _ hm, j / m, ?_, rfl⟩
    rw [Nat.div_lt_iff_lt_mul hm]
    calc j < m * n := hj
      _ = n * m := Nat.mul_comm m n
  · rintro ⟨i, hi, jn, hjn, rfl⟩
    have hm : 0 < m := Nat.lt_of_le_of_lt (Nat.zero_le i) hi
    refine ⟨m * jn + i, ?_, ?_⟩
    · calc m * jn + i < m * jn + m := by omega
        _ = m * (jn + 1) := by ring
        _ ≤ m * n := Nat.mul_le_mul_left m hjn
    · have h1 : (m * jn + i) % m = i := by
        rw [Nat.mul_add_mod]
        exact Nat.mod_eq_of_lt hi
      have h2 : (m * jn + i) / m = jn := by
        rw [Nat.mul_add_div hm, Nat.div_eq_of_lt hi]
        omega
      rw [h1, h2]

/-- Membership in a group's reference tile block. -/
theorem refGroup_mem (mDyn nDyn : Bool) (offs : Nat → Nat) (M N BM BN g : Nat)
    (x : Nat × Nat × Nat) :
    x ∈ refGroup mDyn nDyn offs M N BM BN g ↔
      (0 < refMsize mDyn offs M g ∧ 0 < refNsize nDyn offs N g) ∧
        ∃ i, i < numMTiles mDyn offs M BM g ∧
          ∃ jn, jn < numNTiles nDyn offs N BN g ∧ x = (g, i, jn) := by
  rw [refGroup]
  by_cases hc : 0 < refMsize mDyn offs M g ∧ 0 < refNsize nDyn offs N g
  · rw [if_pos hc]
    constructor
    · intro hx
      rw [List.mem_flatMap] at hx
      obtain ⟨i, hi, hx⟩ := hx
      rw [List.mem_range] at hi
      rw [List.mem_map] at hx
      obtain ⟨jn, hjn, hx⟩ := hx
      rw [List.mem_range] at hjn
      exact ⟨hc, i, hi, jn, hjn, hx.symm⟩
    · rintro ⟨-, i, hi, jn, hjn, rfl⟩
      rw [List.mem_flatMap]
      exact ⟨i, List.mem_range.mpr hi, List.mem_map.mpr ⟨jn, List.mem_range.mpr hjn, rfl⟩⟩
  · rw [if_neg hc]
    constructor
    · intro hx; exact absurd hx (List.not_mem_nil x)
    · rintro ⟨hc2, -⟩; exact absurd hc2 hc

/-- Membership in the reference enumeration. -/
theorem refEnum_mem (mDyn nDyn : Bool) (offs : Nat → Nat) (M N BM BN G : Nat)
    (x : Nat × Nat × Nat) :
    x ∈ refEnum mDyn nDyn offs M N BM BN G ↔
      ∃ g, g < G ∧ (0 < refMsize mDyn offs M g ∧ 0 < refNsize nDyn offs N g) ∧
        ∃ i, i < numMTiles mDyn offs M BM g ∧
          ∃ jn, jn < numNTiles nDyn offs N BN g ∧ x = (g, i, jn) := by
  rw [refEnum, List.mem_flatMap]
  constructor
  · rintro ⟨g, hg, hx⟩
    obtain ⟨hc, hrest⟩ := (refGroup_mem mDyn nDyn offs M N BM BN g x).mp hx
    exact ⟨g, List.mem_range.mp hg, hc, hrest⟩
  · rintro ⟨g, hg, hc, hrest⟩
    exact ⟨g, List.mem_range.mpr hg,
      (refGroup_mem mDyn nDyn offs M N BM BN g x).mpr ⟨hc, hrest⟩⟩

/-- The reference enumeration is duplicate-free. -/
theorem refEnum_nodup (mDyn nDyn : Bool) (offs : Nat → Nat) (M N BM BN G : Nat) :
    (refEnum mDyn nDyn offs M N BM BN G).Nodup := by
  rw [refEnum]
  apply nodup_flatMap_range
  · intro g hg
    rw [refGroup]
    by_cases hc : 0 < refMsize mDyn offs M g ∧ 0 < refNsize nDyn offs N g
    · rw [if_pos hc]
      apply nodup_flatMap_range
      · intro i hi
        refine List.Nodup.map ?_ (List.nodup_range _)
        intro a b hab
        simpa using hab
      · intro i1 i2 x hi1 hi2 hx1 hx2
        rw [List.mem_map] at hx1 hx2
        obtain ⟨a, -, rfl⟩ := hx1
        obtain ⟨b, -, hb⟩ := hx2
        have := congrArg (fun p : Nat × Nat × Nat => p.2.1) hb
        simp only at this
        omega
    · rw [if_neg hc]
      exact List.nodup_nil
  · intro g1 g2 x hg1 hg2 hx1 hx2
    obtain ⟨hc1, i1, hi1, jn1, hjn1, h1⟩ := (refGroup_mem mDyn nDyn offs M N BM BN g1 x).mp hx1
    obtain ⟨hc2, i2, hi2, jn2, hjn2, h2⟩ := (refGroup_mem mDyn nDyn offs M N BM BN g2 x).mp hx2
    rw [h1] at h2
    have := congrArg Prod.fst h2
    simpa using this

/-- Characterization of the multiset of work items over all contexts: each
tile of each nonempty group is processed exactly once (by the context owning
its global index's residue class). -/
theorem simAll_spec (mDyn nDyn : Bool) (offs : Nat → Nat) (M N BM BN G s : Nat)
    (hs : 0 < s) (hmn : mDyn = false ∨ nDyn = false) (hM : mDyn = true ∨ 0 < M) :
    (∀ x, x ∈ simAll mDyn nDyn offs M N BM BN G s ↔
        ∃ g, g < G ∧ 0 < refMsize mDyn offs M g ∧
          ∃ j, j < numMTiles mDyn offs M BM g * numNTiles nDyn offs N BN g ∧
            x = (g, j % numMTiles mDyn offs M BM g, j / numMTiles mDyn offs M BM g))
      ∧ (simAll mDyn nDyn offs M N BM BN G s).Nodup := by
  have hctx := fun t0 (ht0 : t0 < s) =>
    simGroups_spec mDyn nDyn offs M N BM BN s hs hmn hM G 0 ⟨t0, 0, 0, 0⟩
      rfl (Nat.zero_le _) (by simpa using ht0) (fun _ => rfl) (fun _ => rfl)
  constructor
  · intro x
    rw [simAll, List.mem_flatMap]
    constructor
    · rintro ⟨t0, ht0, hx⟩
      rw [List.mem_range] at ht0
      obtain ⟨cmem, -⟩ := hctx t0 ht0
      obtain ⟨g, -, hg2, hgpos, j, hj, -, rfl⟩ := (cmem x).mp hx
      exact ⟨g, by omega, hgpos, j, hj, rfl⟩
    · rintro ⟨g, hg, hgpos, j, hj, rfl⟩
      refine ⟨(prefixTiles mDyn nDyn offs M N BM BN g + j) % s,
        List.mem_range.mpr (Nat.mod_lt _ hs), ?_⟩
      obtain ⟨cmem, -⟩ := hctx _ (Nat.mod_lt _ hs)
      apply (cmem _).mpr
      refine ⟨g, Nat.zero_le g, by omega, hgpos, j, hj, ?_, rfl⟩
      exact (Nat.mod_mod_of_dvd _ dvd_rfl).symm
  · rw [simAll]
    apply nodup_flatMap_range
    · intro t0 ht0
      exact (hctx t0 ht0).2
    · intro t1 t2 x h1 h2 hx1 hx2
      obtain ⟨cmem1, -⟩ := hctx t1 h1
      obtain ⟨cmem2, -⟩ := hctx t2 h2
      obtain ⟨g, -, -, -, j, hj, hjm, hxe⟩ := (cmem1 x).mp hx1
      obtain ⟨g2, -, -, -, j2, hj2, hjm2, hxe2⟩ := (cmem2 x).mp hx2
      rw [hxe] at hxe2
      simp only [Prod.ext_iff] at hxe2
      obtain ⟨hge, hme, hde⟩ := hxe2
      subst hge
      have hjj : j = j2 := decode_inj _ j j2 hme hde
      subst hjj
      have ht1 : t1 % s = t1 := Nat.mod_eq_of_lt h1
      have ht2 : t2 % s = t2 := Nat.mod_eq_of_lt h2
      have : t1 = t2 := by
        rw [← ht1, ← ht2]
        rw [← hjm, ← hjm2]
      exact this

/-- The degenerate static `M = 0` problem: the scheduler produces nothing. -/
theorem simAll_M_zero (nDyn : Bool) (offs : Nat → Nat) (N BM BN G s : Nat) :
    simAll false nDyn offs 0 N BM BN G s = [] := by
  rw [simAll]
  apply List.flatMap_eq_nil_iff.mpr
  intro t0 _
  exact simGroups_M_zero nDyn offs N BM BN s G 0 ⟨t0, 0, 0, 0⟩

/-- The degenerate static `M = 0` problem: the reference enumeration is empty. -/
theorem refEnum_M_zero (nDyn : Bool) (offs : Nat → Nat) (N BM BN G : Nat) :
    refEnum false nDyn offs 0 N BM BN G = [] := by
  rw [refEnum]
  apply List.flatMap_eq_nil_iff.mpr
  intro g _
  rw [refGroup]
  have : refMsize false offs 0 g = 0 := by simp [refMsize]
  rw [if_neg]
  rw [this]
  simp

example : can_use_triton_kernel true [4, 128, 64] [256, 64] false false = false := by decide
example : can_use_triton_kernel true [4, 128, 64] [4, 64, 256] false false = true := by decide
example : grouped_mm_args [4, 128, 64] [4, 64, 256] none none none 0 =
    .ok ⟨0, [4, 128, 256]⟩ := by rfl
example : grouped_mm_args [1000, 64] [64, 256] (some 4) none none 0 =
    .ok ⟨0, [4, 1000, 256]⟩ := by rfl

/-! ### The claims -/

/-- C1.  Tile enumeration completeness: for every group count `G`, every
per-group extent (static `M`, `N` or derived from a monotone offsets array —
never both dynamic, matching the four kernel instantiations), and every
`BLOCK_M`, `BLOCK_N`, `NUM_SMS ≥ 1`, the multiset of
`(group, tile_m_idx, tile_n_idx)` work items processed by simulating the
persistent-kernel loop for all contexts `tidx = 0 .. NUM_SMS - 1` equals the
reference enumeration — the union over all groups with `m_size > 0` and
`n_size > 0` of the Cartesian product of the group's M-tile and N-tile
ranges — with no duplicates and no omissions; zero-extent groups contribute
nothing and non-multiple extents contribute `ceil` tiles (via `cdiv` in
`numMTiles` / `numNTiles`).  The monotonicity hypothesis on the offsets array
restricts the statement to the regime the claim describes, where the `Nat`
truncated subtractions of the embedding agree with the kernel's integer
subtractions. -/
theorem tile_enumeration_complete (mDyn nDyn : Bool)
    (hmn : mDyn = false ∨ nDyn = false)
    (offs : Nat → Nat) (hmono : ∀ g, prevOff offs g ≤ offs g)
    (M N BM BN G s : Nat) (hs : 0 < s) :
    ((simAll mDyn nDyn offs M N BM BN G s : List (Nat × Nat × Nat)) :
        Multiset (Nat × Nat × Nat))
      = (refEnum mDyn nDyn offs M N BM BN G : List (Nat × Nat × Nat))
    ∧ (simAll mDyn nDyn offs M N BM BN G s).Nodup := by
  by_cases hM : mDyn = true ∨ 0 < M
  · obtain ⟨smem, snd⟩ := simAll_spec mDyn nDyn offs M N BM BN G s hs hmn hM
    refine ⟨?_, snd⟩
    rw [Multiset.Nodup.ext (Multiset.coe_nodup.mpr snd)
      (Multiset.coe_nodup.mpr (refEnum_nodup mDyn nDyn offs M N BM BN G))]
    intro a
    rw [Multiset.mem_coe, Multiset.mem_coe, smem a,
      refEnum_mem mDyn nDyn offs M N BM BN G a]
    constructor
    · rintro ⟨g, hg, hpos, hj⟩
      obtain ⟨i, hi, jn, hjn, rfl⟩ := (decode_range_iff g _ _ a).mp hj
      have hN : 0 < refNsize nDyn offs N g := by
        by_contra hN0
        have hz : refNsize nDyn offs N g = 0 := by omega
        have : numNTiles nDyn offs N BN g = 0 := by
          rw [numNTiles, hz, cdiv_zero_left]
        omega
      exact ⟨g, hg, ⟨hpos, hN⟩, i, hi, jn, hjn, rfl⟩
    · rintro ⟨g, hg, hc, i, hi, jn, hjn, rfl⟩
      exact ⟨g, hg, hc.1, (decode_range_iff g _ _ _).mpr ⟨i, hi, jn, hjn, rfl⟩⟩
  · push_neg at hM
    obtain ⟨hmd, hM0⟩ := hM
    have hmf : mDyn = false := by
      cases mDyn
      · rfl
      · exact absurd rfl hmd
    have hMe : M = 0 := by omega
    subst hmf
    subst hMe
    rw [simAll_M_zero, refEnum_M_zero]
    exact ⟨rfl, List.nodup_nil⟩

/-- Witness for `tile_enumeration_complete`: a concrete dynamic-`M` problem
(`G = 4`, offsets `4, 8, 12, 16`, `N = 5`, `BLOCK_M = 2`, `BLOCK_N = 3`,
`NUM_SMS = 3`). -/
theorem tile_enumeration_complete_witness :
    ((true = false ∨ false = false)
      ∧ (∀ g, prevOff (fun x => 4 * x + 4) g ≤ 4 * g + 4)
      ∧ 0 < 3)
    ∧ ((simAll true false (fun x => 4 * x + 4) 0 5 2 3 4 3 :
          List (Nat × Nat × Nat)) : Multiset (Nat × Nat × Nat))
        = (refEnum true false (fun x => 4 * x + 4) 0 5 2 3 4 :
            List (Nat × Nat × Nat))
    ∧ (simAll true false (fun x => 4 * x + 4) 0 5 2 3 4 3).Nodup := by
  have hmono : ∀ g, prevOff (fun x => 4 * x + 4) g ≤ 4 * g + 4 := by
    intro g
    cases g with
    | zero => simp [prevOff]
    | succ g => simp only [prevOff]; omega
  obtain ⟨h1, h2⟩ := tile_enumeration_complete true false (Or.inr rfl)
    (fun x => 4 * x + 4) hmono 0 5 2 3 4 3 (by decide)
  exact ⟨⟨Or.inr rfl, hmono, by decide⟩, h1, h2⟩

/-- C2 counterexample: the config `BLOCK_M=64, BLOCK_N=64, BLOCK_K=64,
num_stages=3, num_warps=8` is generated by the generic family, yet the
warp-specialization predicate evaluates to `false` on it (the
`num_consumer_groups` attribute lookup yields the default `0`, because the
generators put `NUM_CONSUMER_GROUPS` only into `kwargs`), and it survives the
pruner even though `num_warps ≠ 4` — so the partitioning check is not applied
to every generated config, contradicting the claim. -/
theorem warp_spec_predicate_counterexample :
    mkNVConfig 64 64 64 3 8 ∈ _NV_CONFIGS
    ∧ use_warp_specialization (mkNVConfig 64 64 64 3 8) = false
    ∧ mkNVConfig 64 64 64 3 8 ∈ early_config_prune false 1000000 32 _NV_CONFIGS
        ⟨1, 64, 64, false, false⟩
    ∧ (mkNVConfig 64 64 64 3 8).num_warps ≠ 4 := by decide

/-- The pruner as the amended claim C2 describes it: warp specialization is
off for every config, so checks 2 and 4 (oversized M/N tiles) are
unconditionally active and the partitioning check (check 6) never fires. -/
def early_config_prune_no_ws (hip : Bool) (maxShared numSms : Nat)
    (configs : List Config) (a : NamedArgs) : List Config :=
  configs.filter fun config =>
    let BLOCK_M := getKw config "BLOCK_M"
    let BLOCK_N := getKw config "BLOCK_N"
    let MPG := m_per_group a
    let NPG := n_per_group a
    let MIN_M_TILES := if hip then 32 else 64
    let MIN_N_TILES := if hip then 32 else 64
    let N_TILES := NPG / BLOCK_N
    if required_shared_memory hip config > maxShared then false
    else if BLOCK_M > MIN_M_TILES ∧ BLOCK_M > MPG * 2 then false
    else if BLOCK_M < 128 ∧ BLOCK_M < MPG / 2 then false
    else if BLOCK_N > MIN_N_TILES ∧ a.G * MPG * N_TILES < numSms then false
    else if BLOCK_N < 128 ∧ a.G * MPG * N_TILES > 2 * numSms then false
    else true

/-- C2 amended.  For every config — in particular every generated config of
either family — `getattr(config, "num_consumer_groups", 0)` returns the
default `0`, so the warp-specialization predicate `num_consumer_groups >= 1`
evaluates to `false`; consequently the "not warp-specialized" oversized-tile
checks are active for every config and the warp-specialization partitioning
check never rejects anything: the pruner coincides with the
no-warp-specialization pruner on every input. -/
theorem warp_spec_predicate_false :
    (∀ c : Config, use_warp_specialization c = false)
    ∧ ∀ hip maxShared numSms cfgs a,
        early_config_prune hip maxShared numSms cfgs a
          = early_config_prune_no_ws hip maxShared numSms cfgs a := by
  constructor
  · intro c; rfl
  · intro hip maxShared numSms cfgs a
    rw [early_config_prune, early_config_prune_no_ws]
    apply List.filter_congr
    intro c _
    by_cases h1 : required_shared_memory hip c > maxShared
    · simp only [if_pos h1]
    · simp only [if_neg h1]
      simp [tile_checks, use_warp_specialization, num_consumer_groups_attr]

/-- C3 counterexample: for A 3-D `[2, 8, 16]`, B 2-D `[16, 64]` (so `K = 16`,
`N = 64`), offsets present, no bias, on a TMA-capable device, the code's gate
rejects (it checks `m2_size[-2] = K = 16 < 32`) while the claim's table
accepts (`N = 64 ≥ 32`). -/
theorem gate_table_counterexample :
    can_use_triton_kernel true [2, 8, 16] [16, 64] true false = false
    ∧ claim_gate_table true [2, 8, 16] [16, 64] true false = true := by decide

/-- C3 amended.  The gate matches the table with the A 2-D & B 3-D row
requiring offsets present and `m1_size[-1] ≥ 32` and `m2_size[-2] ≥ 32` (both
contraction dims `K`, not `N`), and the A 3-D & B 2-D row requiring offsets
present and `m2_size[-2] ≥ 32` (B's contraction dim `K`, not `N`); the other
two rows are as the claim states. -/
theorem gate_matches_amended_table (has_tma : Bool) (m1_size m2_size : List Nat)
    (offs_present bias_present : Bool)
    (h1 : m1_size.length = 2 ∨ m1_size.length = 3)
    (h2 : m2_size.length = 2 ∨ m2_size.length = 3) :
    can_use_triton_kernel has_tma m1_size m2_size offs_present bias_present
      = amended_gate_table has_tma m1_size m2_size offs_present bias_present := by
  cases has_tma <;> cases bias_present <;> cases offs_present <;>
    rcases h1 with h1 | h1 <;> rcases h2 with h2 | h2 <;>
      simp [can_use_triton_kernel, amended_gate_table, h1, h2]

/-- Witness for `gate_matches_amended_table` at ranks 3 and 2. -/
theorem gate_matches_amended_table_witness :
    (([2, 8, 16] : List Nat).length = 2 ∨ ([2, 8, 16] : List Nat).length = 3)
    ∧ (([16, 64] : List Nat).length = 2 ∨ ([16, 64] : List Nat).length = 3)
    ∧ can_use_triton_kernel true [2, 8, 16] [16, 64] true false
        = amended_gate_table true [2, 8, 16] [16, 64] true false :=
  ⟨Or.inr (by decide), Or.inl (by decide),
    gate_matches_amended_table true [2, 8, 16] [16, 64] true false
      (Or.inr (by decide)) (Or.inl (by decide))⟩

/-- C4.  The pruner's shared-memory check rejects a config exactly when the
documented estimate — `(BLOCK_M + BLOCK_N) * BLOCK_K * num_stages * dtsize`
for the generic family, `BLOCK_N * BLOCK_K * num_stages * dtsize` for the
alternate-vendor family, with `dtsize = 1`, the element size of the fp8
operands — exceeds the shared-memory limit: the pruner factors as that
comparison conjoined with the remaining checks, and a config rejected by the
estimate never appears in the output. -/
theorem smem_bound_prune (hip : Bool) (maxShared numSms : Nat)
    (cfgs : List Config) (a : NamedArgs) :
    early_config_prune hip maxShared numSms cfgs a
      = cfgs.filter (fun c =>
          decide (required_shared_memory hip c ≤ maxShared)
            && tile_checks hip numSms a c)
    ∧ ∀ c, c ∈ early_config_prune hip maxShared numSms cfgs a →
        required_shared_memory hip c ≤ maxShared := by
  constructor
  · rw [early_config_prune]
    apply List.filter_congr
    intro c _
    by_cases h : required_shared_memory hip c > maxShared
    · rw [if_pos h]
      have hd : decide (required_shared_memory hip c ≤ maxShared) = false := by
        simp
        omega
      rw [hd]
      simp
    · rw [if_neg h]
      have hd : decide (required_shared_memory hip c ≤ maxShared) = true := by
        simp
        omega
      rw [hd]
      simp
  · intro c hc
    rw [early_config_prune, List.mem_filter] at hc
    obtain ⟨-, hc⟩ := hc
    by_cases h : required_shared_memory hip c > maxShared
    · rw [if_pos h] at hc
      exact absurd hc (by simp)
    · omega

/-- Witness for `smem_bound_prune`: a surviving config indeed fits in the
limit. -/
theorem smem_bound_prune_witness :
    mkNVConfig 64 64 64 3 8 ∈ early_config_prune false 1000000 32
        [mkNVConfig 64 64 64 3 8] ⟨1, 64, 64, false, false⟩
    ∧ required_shared_memory false (mkNVConfig 64 64 64 3 8) ≤ 1000000 :=
  ⟨by decide,
    (smem_bound_prune false 1000000 32 [mkNVConfig 64 64 64 3 8]
      ⟨1, 64, 64, false, false⟩).2 _ (by decide)⟩

/-- C5.  For the generic family with dynamic `M`, the pruner derives
`M_PER_GROUP = next_power_of_2(M) // G`, and whenever that value is `8` no
config with `BLOCK_M = 128` survives pruning (since `128 > 64`, the generic
floor, and `128 > 2 * 8 = 16`, and warp specialization is off). -/
theorem block_m_128_pruned (maxShared numSms : Nat) (cfgs : List Config)
    (a : NamedArgs) (hdyn : a.M_IS_DYNAMIC = true) (h8 : m_per_group a = 8) :
    m_per_group a = next_power_of_2 a.M / a.G
    ∧ ∀ c, c ∈ early_config_prune false maxShared numSms cfgs a →
        getKw c "BLOCK_M" ≠ 128 := by
  constructor
  · rw [m_per_group, if_pos hdyn]
  · intro c hc h128
    rw [early_config_prune, List.mem_filter] at hc
    obtain ⟨-, hc⟩ := hc
    by_cases h1 : required_shared_memory false c > maxShared
    · rw [if_pos h1] at hc
      exact absurd hc (by simp)
    · rw [if_neg h1] at hc
      simp [tile_checks, use_warp_specialization, num_consumer_groups_attr,
        h128, h8] at hc

/-- Witness for `block_m_128_pruned`: `M = 29`, `G = 4` gives
`M_PER_GROUP = next_power_of_2(29) / 4 = 32 / 4 = 8`, and the surviving
config `BLOCK_M = 64` is indeed not `128`. -/
theorem block_m_128_pruned_witness :
    (⟨4, 29, 64, true, false⟩ : NamedArgs).M_IS_DYNAMIC = true
    ∧ m_per_group ⟨4, 29, 64, true, false⟩ = 8
    ∧ m_per_group ⟨4, 29, 64, true, false⟩ = next_power_of_2 29 / 4
    ∧ mkNVConfig 64 64 64 3 4 ∈ early_config_prune false 1000000 32
        [mkNVConfig 64 64 64 3 4] ⟨4, 29, 64, true, false⟩
    ∧ getKw (mkNVConfig 64 64 64 3 4) "BLOCK_M" ≠ 128 := by
  have h := block_m_128_pruned 1000000 32 [mkNVConfig 64 64 64 3 4]
    ⟨4, 29, 64, true, false⟩ (by decide) (by decide)
  exact ⟨by decide, by decide, h.1, by decide, h.2 _ (by decide)⟩

/-- C6.  The scale-and-store stage of the template: the row-scale address is
the flattened group base (`m_start_offset` when `M` is dynamic, `g * M` for a
2-D scale operand with static `M`, `g * SCALE_A_STRIDE_G` for a 3-D operand)
plus the tile's row offset `tile_m_idx * BLOCK_M + r`; analogously for column
scales; the stored value is the fp32 accumulator times the row scale times
the column scale; the output store carries the group index `g` as a separate
coordinate exactly when neither `M` nor `N` is dynamic, and otherwise uses
absolute row/column offsets; out-of-bounds lanes of a partial tile are
masked. -/
theorem scale_store_spec (mDyn nDyn aIs2d bIs2d : Bool)
    (g M N mStartOffset nStartOffset scaleAStrideG scaleBStrideG : Nat)
    (BM BN tileM tileN m_size n_size r c : Nat) (acc sa sb : ℚ) :
    scale_a_addr aIs2d mDyn g M mStartOffset scaleAStrideG BM tileM r
      = (if aIs2d then (if mDyn then mStartOffset else g * M)
          else g * scaleAStrideG) + (tileM * BM + r)
    ∧ scale_b_addr bIs2d nDyn g N nStartOffset scaleBStrideG BN tileN c
      = (if bIs2d then (if nDyn then nStartOffset else g * N)
          else g * scaleBStrideG) + (tileN * BN + c)
    ∧ c_value acc sa sb = acc * sa * sb
    ∧ store_coords mDyn nDyn g (idx_m mDyn mStartOffset BM tileM r)
        (idx_n nDyn nStartOffset BN tileN c)
      = (if mDyn || nDyn
          then [if mDyn then mStartOffset + (tileM * BM + r) else tileM * BM + r,
                if nDyn then nStartOffset + (tileN * BN + c) else tileN * BN + c]
          else [g, tileM * BM + r, tileN * BN + c])
    ∧ ((store_coords mDyn nDyn g (idx_m mDyn mStartOffset BM tileM r)
          (idx_n nDyn nStartOffset BN tileN c)).length = 3
        ↔ (mDyn = false ∧ nDyn = false))
    ∧ (store_mask BM BN tileM tileN m_size n_size r c = true
        ↔ (tileM * BM + r < m_size ∧ tileN * BN + c < n_size)) := by
  refine ⟨rfl, rfl, rfl, ?_, ?_, ?_⟩
  · cases mDyn <;> cases nDyn <;>
      simp [store_coords, idx_m, idx_n, offs_am, offs_bn]
  · cases mDyn <;> cases nDyn <;> simp [store_coords]
  · simp [store_mask, offs_am, offs_bn]

/-- C7 counterexample: with A 3-D `[4, 128, 64]`, B 2-D `[256, 64]` and no
offsets, the eligibility gate rejects the problem (the A 3-D & B 2-D row
requires offsets to be present), contrary to the claim that it accepts. -/
theorem scenario_a_counterexample :
    can_use_triton_kernel true [4, 128, 64] [256, 64] false false = false := by
  decide

/-- C7 amended.  Scenario A with B 3-D: `G = 4`, A `[4, 128, 64]`,
B `[4, 64, 256]` (per-group `[64, 256]`, stored with its last two dims
transposed in strides), no offsets, `K = 64 ≥ 32`, `N = 256 ≥ 32`: the gate
accepts and the derived output layout is `[4, 128, 256]`. -/
theorem scenario_a_amended :
    can_use_triton_kernel true [4, 128, 64] [4, 64, 256] false false = true
    ∧ grouped_mm_args [4, 128, 64] [4, 64, 256] none none none 0
        = .ok ⟨0, [4, 128, 256]⟩ :=
  ⟨by decide, by rfl⟩

/-- C8 counterexample: for A 2-D `[1000, 64]`, B 2-D `[64, 256]` and offsets
of length 4, the 2-D/2-D case sets `M_IS_DYNAMIC = false` (it is `K` that is
dynamic) and the derived output layout is the 3-D `[4, 1000, 256]`, not the
flattened `[1000, 256]` the claim states. -/
theorem scenario_b_counterexample :
    (dynamic_flags 2 2).1 = false
    ∧ grouped_mm_args [1000, 64] [64, 256] (some 4) none none 0
        = .ok ⟨0, [4, 1000, 256]⟩ :=
  ⟨by decide, by rfl⟩

/-- C8 amended.  For A 2-D `[1000, 64]`, B 2-D `[64, 256]`, offsets
`[250, 500, 800, 1000]` (`G = 4`): the `K` dimension is treated as dynamic
(the offsets partition the contraction dimension), the output layout is
`[4, 1000, 256]` with a group axis, and the output element of group `g` at
row offset `i = tile_m_idx * BLOCK_M + r` uses scale-a row `g * 1000 + i`
(the 2-D scale base for static `M` is `g * M`). -/
theorem scenario_b_amended :
    dynamic_flags 2 2 = (false, false, true)
    ∧ grouped_mm_args [1000, 64] [64, 256] (some 4) none none 0
        = .ok ⟨0, [4, 1000, 256]⟩
    ∧ ∀ g sag BM tm r, scale_a_addr true false g 1000 0 sag BM tm r
        = g * 1000 + (tm * BM + r) :=
  ⟨by decide, by rfl, fun g sag BM tm r => rfl⟩

/-- C9.  The dynamic-dimension flags are a function of the operand ranks
alone, with at most one flag set: 2-D/2-D sets `K_IS_DYNAMIC`, 2-D/3-D sets
`M_IS_DYNAMIC`, 3-D/2-D sets `N_IS_DYNAMIC`, 3-D/3-D sets none. -/
theorem dynamic_flags_exclusive :
    (∀ d1 d2 : Nat,
        ((dynamic_flags d1 d2).1 && (dynamic_flags d1 d2).2.1) = false
        ∧ ((dynamic_flags d1 d2).1 && (dynamic_flags d1 d2).2.2) = false
        ∧ ((dynamic_flags d1 d2).2.1 && (dynamic_flags d1 d2).2.2) = false)
    ∧ dynamic_flags 2 2 = (false, false, true)
    ∧ dynamic_flags 2 3 = (true, false, false)
    ∧ dynamic_flags 3 2 = (false, true, false)
    ∧ dynamic_flags 3 3 = (false, false, false) := by
  refine ⟨?_, by decide, by decide, by decide, by decide⟩
  intro d1 d2
  rw [dynamic_flags]
  by_cases h1 : d1 = 2 <;> by_cases h2 : d2 = 2 <;> simp [h1, h2]

/-- C10.  Supplying an explicit output layout together with a requested
output dtype fails the entry-boundary assert of `grouped_mm_args` (which
`tuned_scaled_grouped_mm` calls before any configuration generation, pruning
or scheduling); supplying a layout with `out_dtype` absent passes the check
and returns the supplied layout unchanged. -/
theorem layout_out_dtype_conflict (m1_size m2_size : List Nat)
    (offs : Option Nat) (L : Layout) (dt mat1_dtype : Nat)
    (h1 : m1_size.length = 2 ∨ m1_size.length = 3)
    (h2 : m2_size.length = 2 ∨ m2_size.length = 3) :
    grouped_mm_args m1_size m2_size offs (some L) (some dt) mat1_dtype
      = .error "out_dtype is ignored if layout is specified."
    ∧ grouped_mm_args m1_size m2_size offs (some L) none mat1_dtype
      = .ok L := by
  constructor
  · rw [grouped_mm_args, if_neg (not_not_intro h1), if_neg (not_not_intro h2)]
    simp
  · rw [grouped_mm_args, if_neg (not_not_intro h1), if_neg (not_not_intro h2)]
    simp

/-- Witness for `layout_out_dtype_conflict` on concrete 2-D shapes and a
concrete layout. -/
theorem layout_out_dtype_conflict_witness :
    (([7, 3] : List Nat).length = 2 ∨ ([7, 3] : List Nat).length = 3)
    ∧ (([3, 5] : List Nat).length = 2 ∨ ([3, 5] : List Nat).length = 3)
    ∧ grouped_mm_args [7, 3] [3, 5] none (some ⟨1, [7, 5]⟩) (some 2) 0
        = .error "out_dtype is ignored if layout is specified."
    ∧ grouped_mm_args [7, 3] [3, 5] none (some ⟨1, [7, 5]⟩) none 0
        = .ok ⟨1, [7, 5]⟩ := by
  have h := layout_out_dtype_conflict [7, 3] [3, 5] none ⟨1, [7, 5]⟩ 2 0
    (Or.inl (by decide)) (Or.inl (by decide))
  exact ⟨Or.inl (by decide), Or.inl (by decide), h.1, h.2⟩

end ScaledGroupedMM
